import Mathlib

/-!
Verification of the serial-port register server (`server.c`) against its
natural-language specification.

The embedding works on `List Char` as the model of NUL-terminated C strings.
C library calls are modelled as follows:

* successive `strtok(s, delims)` calls = `tokenize delims s` (the list of
  maximal nonempty runs of non-delimiter characters; `strtok` skips empty
  fields, so they never appear);
* `atoi` = `atoi` below (skip leading whitespace, optional single sign,
  longest digit run; empty digit run gives `0`); overflow is ignored since
  all values involved are tiny;
* `strncmp(s, lit, n) == 0` with `n = lit.length` = `hasPref lit s`;
* a call that would pass a NULL pointer where a string is required
  (`atoi(NULL)`, `strcpy(_, NULL)`, ...) is undefined behaviour and is
  modelled by the value `none` of an `Option` result.

The register list plus the global register counter form `ServerState`; one
iteration of the server's main loop is `serverStep`, which returns the new
state, the response string written back to the client, and whether the loop
terminates (`quit`).
-/

set_option linter.unusedVariables false
set_option linter.unnecessarySeqFocus false

namespace SerialPort

/-- The ten decimal digit characters; used to model `sprintf("%d", ...)`. -/
def digitChar : Nat → Char
  | 0 => '0'
  | 1 => '1'
  | 2 => '2'
  | 3 => '3'
  | 4 => '4'
  | 5 => '5'
  | 6 => '6'
  | 7 => '7'
  | 8 => '8'
  | 9 => '9'
  | _ => '?'

/-- Numeric value of a digit character, as used by `atoi` (`c - '0'`). -/
def digitVal (c : Char) : Nat := c.toNat - 48

/-- The characters C's `isspace` accepts (the `"C"` locale). -/
def cIsSpace (c : Char) : Bool :=
  c == ' ' || c == '\t' || c == '\n' || c == '\x0b' || c == '\x0c' || c == '\r'

/-- Decimal digits of a natural number, most significant first, with an
explicit fuel argument (`fuel ≥ n` suffices) so that the definition is
structurally recursive and kernel-computable. -/
def natReprAux : Nat → Nat → List Char
  | 0, _ => []
  | f + 1, n => if n < 10 then [digitChar n] else natReprAux f (n / 10) ++ [digitChar (n % 10)]

/-- `sprintf("%d", n)` for a nonnegative `n`. -/
def natRepr (n : Nat) : List Char := natReprAux (n + 1) n

/-- `sprintf("%d", v)` for an arbitrary machine integer. -/
def intRepr (v : Int) : List Char :=
  if v < 0 then '-' :: natRepr (-v).toNat else natRepr v.toNat

/-- Value of a list of digit characters read most-significant-first. -/
def digitsToNat (ds : List Char) : Nat :=
  ds.foldl (fun a c => 10 * a + digitVal c) 0

/-- C's `atoi`: skip leading whitespace, one optional sign, then the longest
run of digits; no digits at all yields `0`. -/
def atoi (s : List Char) : Int :=
  match s.dropWhile cIsSpace with
  | [] => 0
  | c :: r =>
    if c == '-' then -(digitsToNat (r.takeWhile Char.isDigit) : Int)
    else if c == '+' then (digitsToNat (r.takeWhile Char.isDigit) : Int)
    else (digitsToNat ((c :: r).takeWhile Char.isDigit) : Int)

/-- All the (possibly empty) runs of non-delimiter characters of a string,
in order: splitting at every delimiter occurrence. -/
def splitRuns (ds : List Char) : List Char → List (List Char)
  | [] => [[]]
  | c :: rest =>
    if c ∈ ds then [] :: splitRuns ds rest
    else
      match splitRuns ds rest with
      | [] => [[c]]
      | t :: ts => (c :: t) :: ts

/-- The sequence of tokens produced by `strtok(s, ds)` followed by
`strtok(NULL, ds)` until exhaustion: the maximal nonempty runs of
non-delimiter characters. -/
def tokenize (ds : List Char) (s : List Char) : List (List Char) :=
  (splitRuns ds s).filter (fun t => !t.isEmpty)

/-- `strncmp(s, p, p.length) == 0`: `p` is a literal prefix of `s`. -/
def hasPref (p s : List Char) : Bool := s.take p.length == p

/-- The register record (`struct registerlist` minus the link pointer; the
list structure models the links). -/
structure registers_t where
  regid : List Char
  regvalue : Int
  bounds : List Char
deriving DecidableEq, Repr

/-- The server's global state: the register list `regs` together with the
global counter `numofregs`. -/
structure ServerState where
  regs : List registers_t
  numofregs : Nat
deriving DecidableEq, Repr

/-- The default first register installed by `init_reglist`. -/
def reg1 : registers_t := ⟨"REG1".toList, 0, "0-16535".toList⟩

/-- State after `init_reglist()`: one register `REG1`, counter 1. -/
def init_state : ServerState := ⟨[reg1], 1⟩

/-- `add_register(value, bounds)`: increment the counter, build the id
`"REG" + numofregs`, and append the new register at the end of the list. -/
def add_register (value : Int) (bounds : List Char) (st : ServerState) : ServerState :=
  let n := st.numofregs + 1
  ⟨st.regs ++ [⟨"REG".toList ++ natRepr n, value, bounds⟩], n⟩

/-- State after `main`'s startup: `init_reglist()` then
`add_register(3, "1|2|3")`. -/
def startup_state : ServerState := add_register 3 "1|2|3".toList init_state

/-- `print_register(targetid)`: value of the first register with the given
id, `-1` when no register matches. -/
def print_register (targetid : List Char) : List registers_t → Int
  | [] => -1
  | r :: rs => if r.regid = targetid then r.regvalue else print_register targetid rs

/-- `print_bounds(targetid)`: bounds string of the first register with the
given id, `NULL` (`none`) when no register matches. -/
def print_bounds (targetid : List Char) : List registers_t → Option (List Char)
  | [] => none
  | r :: rs => if r.regid = targetid then some r.bounds else print_bounds targetid rs

/-- `bound_check(target_value, bounds)`.  If the bounds string contains `'|'`
it is treated as a discrete list: tokenize on `'|'` and succeed (`0`) iff
some token's `atoi` equals the value, else fail (`-1`).  Otherwise the first
two `'-'`-tokens are taken as lower and upper bound and the value must lie
strictly between their `atoi` values.  When `strtok` returns NULL for a
needed token, the C code calls `atoi(NULL)`: with no token this happens
immediately, with one token it happens exactly when the first conjunct
`target_value > atoi(lower)` holds (C's `&&` short-circuits); both are
undefined behaviour, modelled as `none`. -/
def bound_check (target_value : Int) (bounds : List Char) : Option Int :=
  if '|' ∈ bounds then
    some (if (tokenize ['|'] bounds).any (fun t => target_value == atoi t) then 0 else -1)
  else
    match tokenize ['-'] bounds with
    | [] => none
    | [lo] => if target_value > atoi lo then none else some (-1)
    | lo :: hi :: _ =>
      some (if target_value > atoi lo && target_value < atoi hi then 0 else -1)

/-- `replace_value(target_value, targetid)`: find the first register with the
given id; check the bounds and on success overwrite its value (`0`), on bound
failure leave it (`-1`); return `-2` when no register matches.  The pair
carries the (possibly updated) register list; `none` propagates the undefined
behaviour of `bound_check`. -/
def replace_value (target_value : Int) (targetid : List Char) :
    List registers_t → Option (Int × List registers_t)
  | [] => some (-2, [])
  | r :: rs =>
    if r.regid = targetid then
      match bound_check target_value r.bounds with
      | none => none
      | some c =>
        if c ≠ -1 then some (0, { r with regvalue := target_value } :: rs)
        else some (-1, r :: rs)
    else
      match replace_value target_value targetid rs with
      | none => none
      | some (code, rs') => some (code, r :: rs')

/-- `process_insertion(request)`: tokenize the request on `'+'`; the second
token is the new value (`atoi`), the third the bounds string, passed to
`add_register`.  A missing second token means `atoi(NULL)`, a missing third
token `strcpy(_, NULL)`; both undefined behaviour (`none`). -/
def process_insertion (req : List Char) (st : ServerState) : Option ServerState :=
  match tokenize ['+'] req with
  | _ :: vtok :: btok :: _ => some (add_register (atoi vtok) btok st)
  | _ => none

/-- The write branch of `process_atcommand`: run `replace_value` and map its
result code to the wire response (`-2` ↦ `INVALID REGISTER`, `-1` ↦
`InvalidInput`, `0` ↦ `OK`). -/
def writeOutcome (v : Int) (targetid : List Char) (st : ServerState) :
    Option (ServerState × String × Bool) :=
  match replace_value v targetid st.regs with
  | none => none
  | some (code, regs') =>
    if code = -2 then some (⟨regs', st.numofregs⟩, "INVALID REGISTER\n", false)
    else if code = -1 then some (⟨regs', st.numofregs⟩, "InvalidInput\n", false)
    else some (⟨regs', st.numofregs⟩, "OK\n", false)

/-- The plain-read branch of `process_atcommand`: `print_register` and send
the value, treating the `-1` sentinel as "register not found". -/
def readOutcome (targetRegid : List Char) (st : ServerState) :
    Option (ServerState × String × Bool) :=
  let r := print_register targetRegid st.regs
  if r ≠ -1 then some (st, (intRepr r).asString ++ "\n", false)
  else some (st, "INVALID REGISTER\n", false)

/-- The bounds-read branch of `process_atcommand`: `print_bounds` and send
the stored bounds string verbatim. -/
def boundsOutcome (targetRegid : List Char) (st : ServerState) :
    Option (ServerState × String × Bool) :=
  match print_bounds targetRegid st.regs with
  | some b => some (st, b.asString, false)
  | none => some (st, "INVALID REGISTER\n", false)

/-- Dispatch of `process_atcommand` once the request has been split on `'='`:
the register id is the second `'+'`-token of the main command; no value token
reads the register, `"?"` reads its bounds, anything else is a write.  A NULL
main command or register id would be dereferenced (`none`); both are
unreachable for requests that start with `AT+REG`. -/
def atDispatch (st : ServerState) : List (List Char) → Option (ServerState × String × Bool)
  | [] => none
  | mainCmd :: rest =>
    match (tokenize ['+'] mainCmd)[1]? with
    | none => none
    | some targetRegid =>
      match rest.head? with
      | none => readOutcome targetRegid st
      | some tv =>
        if tv = "?".toList then boundsOutcome targetRegid st
        else writeOutcome (atoi tv) targetRegid st

/-- `process_atcommand(request)`.  Requests starting with `AT+REG` are split
on `'='` and dispatched; anything else gets `INVALID AT-COMMAND`. -/
def process_atcommand (req : List Char) (st : ServerState) :
    Option (ServerState × String × Bool) :=
  if hasPref "AT+REG".toList req then atDispatch st (tokenize ['='] req)
  else some (st, "INVALID AT-COMMAND\n", false)

/-- One iteration of the server's main loop on one client request: requests
whose first 6 bytes are `insert` go to `process_insertion` (answered
`INSERTION COMPLETE`), requests whose first 4 bytes are `quit` answer
`TERMINATING` and stop the loop (`true`), everything else goes to
`process_atcommand`. -/
def serverStep (st : ServerState) (req : List Char) :
    Option (ServerState × String × Bool) :=
  if hasPref "insert".toList req then
    match process_insertion req st with
    | none => none
    | some st' => some (st', "INSERTION COMPLETE\n", false)
  else if hasPref "quit".toList req then
    some (st, "TERMINATING\n", true)
  else
    process_atcommand req st

/-- States the server can reach: the startup state, closed under defined
(non-UB) loop iterations. -/
inductive Reachable : ServerState → Prop where
  | init : Reachable startup_state
  | step {st st' : ServerState} {req : List Char} {resp : String} {b : Bool} :
      Reachable st → serverStep st req = some (st', resp, b) → Reachable st'

/-- `ReachFrom s1 s2`: state `s2` arises from `s1` by zero or more defined
loop iterations. -/
inductive ReachFrom : ServerState → ServerState → Prop where
  | refl (st : ServerState) : ReachFrom st st
  | step {s1 s2 s3 : ServerState} {req : List Char} {resp : String} {b : Bool} :
      ReachFrom s1 s2 → serverStep s2 req = some (s3, resp, b) → ReachFrom s1 s3

/-- A character is one of the ten digit characters. -/
def IsDigitChar (c : Char) : Prop := ∃ d, d < 10 ∧ c = digitChar d

/-- The first register in the list carrying the given id, if any (the one
every lookup loop of the server stops at). -/
def findReg (targetid : List Char) : List registers_t → Option registers_t
  | [] => none
  | r :: rs => if r.regid = targetid then some r else findReg targetid rs

/-- Overwrite the value of the first register carrying the given id. -/
def updateFirst (targetid : List Char) (v : Int) : List registers_t → List registers_t
  | [] => []
  | r :: rs =>
    if r.regid = targetid then { r with regvalue := v } :: rs
    else r :: updateFirst targetid v rs

/-- The identification data of a register that no write can change: its id
and its bounds string. -/
def regidBounds (r : registers_t) : List Char × List Char := (r.regid, r.bounds)

/-- The ids of a server state's registers, in list order. -/
def idsOf (st : ServerState) : List (List Char) := st.regs.map (fun r => r.regid)

/-- The id the server builds for the `n`-th register: `"REG" + n`. -/
def regIdStr (n : Nat) : List Char := "REG".toList ++ natRepr n

/-- The id-assignment invariant of the store: the ids are exactly
`REG1, REG2, ..., REG<numofregs>`, in insertion order. -/
def StoreInv (st : ServerState) : Prop :=
  idsOf st = (List.range' 1 st.numofregs).map regIdStr

/-- Modelled from the spec: a nonempty all-digit string (`<N>` in the wire
grammar). -/
def isDigits (s : List Char) : Bool := !s.isEmpty && s.all Char.isDigit

/-- Modelled from the spec: a valid integer literal — an optional single
sign followed by at least one digit, with nothing else.  Used to state
claims about tokens that are "not parseable as integers". -/
def isIntLit (s : List Char) : Bool :=
  match s with
  | '-' :: r => isDigits r
  | '+' :: r => isDigits r
  | r => isDigits r

/-- Modelled from the spec: a bounds string of valid continuous shape, "an
integer, a `'-'`, and an integer" — some split position carries `'-'` with
an integer literal on each side. -/
def validContShape (s : List Char) : Bool :=
  (List.range s.length).any fun k =>
    s[k]? == some '-' && isIntLit (s.take k) && isIntLit (s.drop (k + 1))

/-- Modelled from the spec (§4.1, §6): the five productions of the wire
grammar — `quit`, `insert+<int>+<bounds>` (bounds token arbitrary but
nonempty and `'+'`-free, copied verbatim), `AT+REG<N>`, `AT+REG<N>=?`, and
`AT+REG<N>=<token>` with `<N>` digits and a nonempty token. -/
def matchesGrammar (s : List Char) : Bool :=
  (s == "quit".toList) ||
  (hasPref "insert+".toList s &&
    (let rest := s.drop 7
     (List.range rest.length).any fun k =>
       rest[k]? == some '+' && isIntLit (rest.take k) &&
         !(rest.drop (k + 1)).isEmpty && !(rest.drop (k + 1)).contains '+')) ||
  (hasPref "AT+REG".toList s &&
    (let rest := s.drop 6
     isDigits rest ||
       (List.range rest.length).any fun k =>
         rest[k]? == some '=' && isDigits (rest.take k) &&
           !(rest.drop (k + 1)).isEmpty))

/-! ### Facts about decimal rendering and `atoi` -/

theorem digitVal_digitChar {d : Nat} (h : d < 10) : digitVal (digitChar d) = d := by
  interval_cases d <;> decide

theorem isDigit_digitChar {d : Nat} (h : d < 10) : (digitChar d).isDigit = true := by
  interval_cases d <;> decide

theorem IsDigitChar.isDigit {c : Char} (h : IsDigitChar c) : c.isDigit = true := by
  obtain ⟨d, hd, rfl⟩ := h
  exact isDigit_digitChar hd

theorem IsDigitChar.not_space {c : Char} (h : IsDigitChar c) : cIsSpace c = false := by
  obtain ⟨d, hd, rfl⟩ := h
  interval_cases d <;> decide

theorem IsDigitChar.ne {c : Char} (h : IsDigitChar c)
    {x : Char} (hx : x.isDigit = false) : c ≠ x := by
  intro hcx
  have hd := h.isDigit
  rw [hcx, hx] at hd
  exact Bool.false_ne_true hd

theorem natReprAux_congr : ∀ (n f g : Nat), n < f → n < g →
    natReprAux f n = natReprAux g n := by
  intro n
  induction n using Nat.strong_induction_on with
  | _ n ih =>
    intro f g hf hg
    match f, hf, g, hg with
    | f + 1, hf, g + 1, hg =>
      show natReprAux (f + 1) n = natReprAux (g + 1) n
      unfold natReprAux
      by_cases h10 : n < 10
      · simp [h10]
      · have hdiv : n / 10 < n := Nat.div_lt_self (by omega) (by omega)
        simp only [h10, if_false]
        rw [ih (n / 10) hdiv f g (by omega) (by omega)]

theorem natReprAux_succ (f n : Nat) :
    natReprAux (f + 1) n = if n < 10 then [digitChar n]
      else natReprAux f (n / 10) ++ [digitChar (n % 10)] := rfl

/-- The recurrence that `sprintf("%d", ·)` satisfies. -/
theorem natRepr_eq (n : Nat) :
    natRepr n = if n < 10 then [digitChar n]
      else natRepr (n / 10) ++ [digitChar (n % 10)] := by
  show natReprAux (n + 1) n = _
  rw [natReprAux_succ]
  by_cases h10 : n < 10
  · simp [h10]
  · have hdiv : n / 10 < n := Nat.div_lt_self (by omega) (by omega)
    simp only [h10, if_false]
    rw [natReprAux_congr (n / 10) n (n / 10 + 1) (by omega) (by omega)]
    rfl

theorem natRepr_ne_nil (n : Nat) : natRepr n ≠ [] := by
  rw [natRepr_eq]
  split <;> simp

theorem natRepr_digits (n : Nat) : ∀ c ∈ natRepr n, IsDigitChar c := by
  induction n using Nat.strong_induction_on with
  | _ n ih =>
    rw [natRepr_eq]
    by_cases h10 : n < 10
    · simp only [h10, if_true, List.mem_singleton]
      rintro c rfl
      exact ⟨n, h10, rfl⟩
    · have hdiv : n / 10 < n := Nat.div_lt_self (by omega) (by omega)
      simp only [h10, if_false, List.mem_append, List.mem_singleton]
      rintro c (hc | rfl)
      · exact ih _ hdiv c hc
      · exact ⟨n % 10, Nat.mod_lt _ (by omega), rfl⟩

theorem digitsToNat_concat (ds : List Char) (c : Char) :
    digitsToNat (ds ++ [c]) = 10 * digitsToNat ds + digitVal c := by
  unfold digitsToNat
  rw [List.foldl_append]
  rfl

/-- Reading back the decimal rendering gives the number. -/
theorem digitsToNat_natRepr (n : Nat) : digitsToNat (natRepr n) = n := by
  induction n using Nat.strong_induction_on with
  | _ n ih =>
    rw [natRepr_eq]
    by_cases h10 : n < 10
    · simp only [h10, if_true]
      show 10 * 0 + digitVal (digitChar n) = n
      rw [digitVal_digitChar h10]
      omega
    · have hdiv : n / 10 < n := Nat.div_lt_self (by omega) (by omega)
      simp only [h10, if_false]
      rw [digitsToNat_concat, ih _ hdiv, digitVal_digitChar (Nat.mod_lt _ (by omega))]
      omega

theorem natRepr_injective : Function.Injective natRepr := by
  intro a b h
  have := digitsToNat_natRepr a
  rw [h, digitsToNat_natRepr] at this
  omega

theorem takeWhile_isDigit_natRepr (n : Nat) :
    (natRepr n).takeWhile Char.isDigit = natRepr n := by
  rw [List.takeWhile_eq_self_iff]
  intro c hc
  exact (natRepr_digits n c hc).isDigit

theorem atoi_natRepr (n : Nat) : atoi (natRepr n) = (n : Int) := by
  obtain ⟨c, rest, hc⟩ : ∃ c rest, natRepr n = c :: rest := by
    cases h : natRepr n with
    | nil => exact absurd h (natRepr_ne_nil n)
    | cons c rest => exact ⟨c, rest, rfl⟩
  have hdig : IsDigitChar c := natRepr_digits n c (by rw [hc]; exact List.mem_cons_self ..)
  have hdrop : (natRepr n).dropWhile cIsSpace = c :: rest := by
    rw [hc, List.dropWhile_cons_of_neg]
    rw [hdig.not_space]
    exact Bool.false_ne_true
  have hne1 : (c == '-') = false := by
    simp only [beq_eq_false_iff_ne, ne_eq]
    exact hdig.ne rfl
  have hne2 : (c == '+') = false := by
    simp only [beq_eq_false_iff_ne, ne_eq]
    exact hdig.ne rfl
  unfold atoi
  rw [hdrop]
  simp only [hne1, hne2, Bool.false_eq_true, if_false]
  rw [← hc, takeWhile_isDigit_natRepr, digitsToNat_natRepr]

theorem atoi_intRepr (v : Int) : atoi (intRepr v) = v := by
  unfold intRepr
  by_cases hneg : v < 0
  · simp only [hneg, if_true]
    unfold atoi
    have hdrop : ('-' :: natRepr (-v).toNat).dropWhile cIsSpace
        = '-' :: natRepr (-v).toNat :=
      List.dropWhile_cons_of_neg (by decide)
    rw [hdrop]
    show -(digitsToNat ((natRepr (-v).toNat).takeWhile Char.isDigit) : Int) = v
    rw [takeWhile_isDigit_natRepr, digitsToNat_natRepr]
    omega
  · simp only [hneg, if_false]
    rw [atoi_natRepr]
    omega

/-! ### Facts about the `strtok` model -/

theorem splitRuns_cons (ds : List Char) (c : Char) (rest : List Char) :
    splitRuns ds (c :: rest) =
      if c ∈ ds then [] :: splitRuns ds rest
      else
        match splitRuns ds rest with
        | [] => [[c]]
        | t :: ts => (c :: t) :: ts := rfl

theorem splitRuns_ne_nil (ds : List Char) (l : List Char) : splitRuns ds l ≠ [] := by
  cases l with
  | nil => simp [splitRuns]
  | cons c rest =>
    rw [splitRuns_cons]
    split
    · simp
    · split <;> simp

theorem splitRuns_no_delim (ds : List Char) (l : List Char)
    (h : ∀ c ∈ l, c ∉ ds) : splitRuns ds l = [l] := by
  induction l with
  | nil => rfl
  | cons c rest ih =>
    have hc : c ∉ ds := h c (List.mem_cons_self ..)
    rw [splitRuns_cons, if_neg hc, ih (fun x hx => h x (List.mem_cons_of_mem _ hx))]

theorem splitRuns_append (ds a b : List Char) (d : Char)
    (ha : ∀ c ∈ a, c ∉ ds) (hd : d ∈ ds) :
    splitRuns ds (a ++ d :: b) = a :: splitRuns ds b := by
  induction a with
  | nil =>
    simp only [List.nil_append]
    rw [splitRuns_cons, if_pos hd]
  | cons c a ih =>
    have hc : c ∉ ds := ha c (List.mem_cons_self ..)
    simp only [List.cons_append]
    rw [splitRuns_cons, if_neg hc, ih (fun x hx => ha x (List.mem_cons_of_mem _ hx))]

theorem tokenize_no_delim (ds l : List Char) (hne : l ≠ [])
    (h : ∀ c ∈ l, c ∉ ds) : tokenize ds l = [l] := by
  unfold tokenize
  rw [splitRuns_no_delim ds l h]
  simp [hne]

theorem tokenize_nil (ds : List Char) : tokenize ds [] = [] := rfl

theorem tokenize_append (ds a b : List Char) (d : Char)
    (hne : a ≠ []) (ha : ∀ c ∈ a, c ∉ ds) (hd : d ∈ ds) :
    tokenize ds (a ++ d :: b) = a :: tokenize ds b := by
  unfold tokenize
  rw [splitRuns_append ds a b d ha hd]
  simp [hne]

theorem nil_not_mem_tokenize (ds l : List Char) : [] ∉ tokenize ds l := by
  intro h
  have := List.of_mem_filter h
  simp at this

/-! ### Character-shape facts used by the request parser -/

theorem IsDigitChar.ne_sym {c : Char} (h : IsDigitChar c)
    {x : Char} (hx : x.isDigit = false) : x ≠ c := fun he => (h.ne hx) he.symm

theorem natRepr_no_char (n : Nat) {x : Char} (hx : x.isDigit = false) :
    x ∉ natRepr n := by
  intro hmem
  exact ((natRepr_digits n x hmem).ne hx) rfl

theorem intRepr_chars (v : Int) : ∀ c ∈ intRepr v, c = '-' ∨ IsDigitChar c := by
  unfold intRepr
  split
  · intro c hc
    rcases List.mem_cons.mp hc with rfl | hc
    · exact Or.inl rfl
    · exact Or.inr (natRepr_digits _ c hc)
  · intro c hc
    exact Or.inr (natRepr_digits _ c hc)

theorem intRepr_ne_nil (v : Int) : intRepr v ≠ [] := by
  unfold intRepr
  split
  · simp
  · exact natRepr_ne_nil _

theorem not_mem_intRepr (v : Int) {x : Char} (hx : x.isDigit = false)
    (hxm : x ≠ '-') : x ∉ intRepr v := by
  intro hmem
  rcases intRepr_chars v x hmem with rfl | hdig
  · exact hxm rfl
  · exact (hdig.ne hx) rfl

theorem intRepr_ne_qmark (v : Int) : intRepr v ≠ ['?'] := by
  intro h
  have : '?' ∈ intRepr v := by rw [h]; exact List.mem_cons_self ..
  exact not_mem_intRepr v (by decide) (by decide) this

/-! ### Parse lemmas: from raw requests to dispatch branches -/

theorem hasPref_ATREG_insert (tail : List Char) :
    hasPref "insert".toList ("AT+REG".toList ++ tail) = false := rfl

theorem hasPref_ATREG_quit (tail : List Char) :
    hasPref "quit".toList ("AT+REG".toList ++ tail) = false := rfl

theorem hasPref_ATREG_self (tail : List Char) :
    hasPref "AT+REG".toList ("AT+REG".toList ++ tail) = true := rfl

/-- A request starting with `AT+REG` reaches neither the insertion nor the
quit branch of the main loop and is split on `'='` for AT dispatch. -/
theorem serverStep_AT (st : ServerState) (tail : List Char) :
    serverStep st ("AT+REG".toList ++ tail)
      = atDispatch st (tokenize ['='] ("AT+REG".toList ++ tail)) := by
  unfold serverStep process_atcommand
  simp only [hasPref_ATREG_insert, hasPref_ATREG_quit, hasPref_ATREG_self,
    Bool.false_eq_true, if_false, if_true]

theorem ATREG_sfx_no_eq (sfx : List Char) (hsE : '=' ∉ sfx) :
    ∀ c ∈ "AT+REG".toList ++ sfx, c ∉ (['='] : List Char) := by
  intro c hc
  rcases List.mem_append.mp hc with h | h
  · fin_cases h <;> decide
  · simp only [List.mem_singleton]
    rintro rfl
    exact hsE h

theorem tokenize_plus_main (sfx : List Char) (hsP : '+' ∉ sfx) :
    tokenize ['+'] ("AT+REG".toList ++ sfx) = ["AT".toList, "REG".toList ++ sfx] := by
  show tokenize ['+'] ("AT".toList ++ '+' :: ("REG".toList ++ sfx)) = _
  rw [tokenize_append ['+'] "AT".toList ("REG".toList ++ sfx) '+' (by simp)
      (by intro c hc; fin_cases hc <;> decide) (List.mem_singleton_self _)]
  rw [tokenize_no_delim ['+'] ("REG".toList ++ sfx) (by simp)]
  intro c hc
  rcases List.mem_append.mp hc with h | h
  · fin_cases h <;> decide
  · simp only [List.mem_singleton]
    rintro rfl
    exact hsP h

/-- Parsing `AT+REG<sfx>` (no `'='` anywhere): the plain-read branch on the
register id `REG<sfx>`. -/
theorem serverStep_at_read (st : ServerState) (sfx : List Char)
    (hsE : '=' ∉ sfx) (hsP : '+' ∉ sfx) :
    serverStep st ("AT+REG".toList ++ sfx)
      = readOutcome ("REG".toList ++ sfx) st := by
  have h0 : ("AT+REG".toList ++ sfx) = "AT+REG".toList ++ sfx ++ ([] : List Char) := by
    simp
  rw [show serverStep st ("AT+REG".toList ++ sfx)
      = atDispatch st (tokenize ['='] ("AT+REG".toList ++ sfx)) from serverStep_AT st sfx]
  rw [tokenize_no_delim ['='] ("AT+REG".toList ++ sfx) (by simp)
    (ATREG_sfx_no_eq sfx hsE)]
  simp only [atDispatch]
  rw [tokenize_plus_main sfx hsP]
  rfl

/-- Parsing `AT+REG<sfx>=<tok>` with `tok ≠ "?"`: the write branch with the
value `atoi tok` against the register id `REG<sfx>`. -/
theorem serverStep_at_write (st : ServerState) (sfx tok : List Char)
    (hsE : '=' ∉ sfx) (hsP : '+' ∉ sfx)
    (ht1 : tok ≠ []) (ht2 : '=' ∉ tok) (ht3 : tok ≠ ['?']) :
    serverStep st ("AT+REG".toList ++ sfx ++ '=' :: tok)
      = writeOutcome (atoi tok) ("REG".toList ++ sfx) st := by
  rw [List.append_assoc, serverStep_AT st (sfx ++ '=' :: tok), ← List.append_assoc]
  rw [tokenize_append ['='] ("AT+REG".toList ++ sfx) tok '=' (by simp)
      (ATREG_sfx_no_eq sfx hsE) (List.mem_singleton_self _)]
  rw [tokenize_no_delim ['='] tok ht1
      (by intro c hc; simp only [List.mem_singleton]; rintro rfl; exact ht2 hc)]
  simp only [atDispatch]
  rw [tokenize_plus_main sfx hsP]
  simp only [List.getElem?_cons_succ, List.getElem?_cons_zero, List.head?_cons]
  rw [if_neg (show ¬tok = "?".toList from ht3)]

/-- Parsing `AT+REG<sfx>=?`: the bounds-read branch on the register id
`REG<sfx>`. -/
theorem serverStep_at_bounds (st : ServerState) (sfx : List Char)
    (hsE : '=' ∉ sfx) (hsP : '+' ∉ sfx) :
    serverStep st ("AT+REG".toList ++ sfx ++ '=' :: ['?'])
      = boundsOutcome ("REG".toList ++ sfx) st := by
  rw [List.append_assoc, serverStep_AT st (sfx ++ '=' :: ['?']), ← List.append_assoc]
  rw [tokenize_append ['='] ("AT+REG".toList ++ sfx) ['?'] '=' (by simp)
      (ATREG_sfx_no_eq sfx hsE) (List.mem_singleton_self _)]
  rw [tokenize_no_delim ['='] ['?'] (by simp) (by intro c hc; fin_cases hc <;> decide)]
  simp only [atDispatch]
  rw [tokenize_plus_main sfx hsP]
  rfl

theorem hasPref_insert_self (tail : List Char) :
    hasPref "insert".toList ("insert".toList ++ tail) = true := rfl

/-- Parsing `insert+<vtok>+<btok>`: the insertion branch, adding a register
with value `atoi vtok` and the verbatim bounds `btok`. -/
theorem serverStep_insert_parse (st : ServerState) (vtok btok : List Char)
    (hv1 : vtok ≠ []) (hv2 : '+' ∉ vtok) (hb1 : btok ≠ []) (hb2 : '+' ∉ btok) :
    serverStep st ("insert".toList ++ '+' :: (vtok ++ '+' :: btok))
      = some (add_register (atoi vtok) btok st, "INSERTION COMPLETE\n", false) := by
  unfold serverStep
  simp only [hasPref_insert_self, if_true]
  unfold process_insertion
  rw [tokenize_append ['+'] "insert".toList (vtok ++ '+' :: btok) '+' (by simp)
      (by intro c hc; fin_cases hc <;> decide) (List.mem_singleton_self _)]
  rw [tokenize_append ['+'] vtok btok '+' hv1
      (by intro c hc; simp only [List.mem_singleton]; rintro rfl; exact hv2 hc)
      (List.mem_singleton_self _)]
  rw [tokenize_no_delim ['+'] btok hb1
      (by intro c hc; simp only [List.mem_singleton]; rintro rfl; exact hb2 hc)]

/-! ### Facts about the register-list operations -/

theorem replace_value_not_found (v : Int) (tid : List Char) (regs : List registers_t)
    (h : ∀ r ∈ regs, r.regid ≠ tid) : replace_value v tid regs = some (-2, regs) := by
  induction regs with
  | nil => rfl
  | cons r rs ih =>
    unfold replace_value
    rw [if_neg (h r (List.mem_cons_self ..)),
      ih (fun x hx => h x (List.mem_cons_of_mem _ hx))]

theorem replace_value_found (v : Int) (tid : List Char) (pre post : List registers_t)
    (r : registers_t) (hpre : ∀ x ∈ pre, x.regid ≠ tid) (hid : r.regid = tid) :
    replace_value v tid (pre ++ r :: post) =
      match bound_check v r.bounds with
      | none => none
      | some c =>
        if c ≠ -1 then some (0, pre ++ { r with regvalue := v } :: post)
        else some (-1, pre ++ r :: post) := by
  induction pre with
  | nil =>
    simp only [List.nil_append]
    unfold replace_value
    rw [if_pos hid]
  | cons x xs ih =>
    simp only [List.cons_append]
    unfold replace_value
    rw [if_neg (hpre x (List.mem_cons_self ..)),
      ih (fun y hy => hpre y (List.mem_cons_of_mem _ hy))]
    cases bound_check v r.bounds with
    | none => rfl
    | some c =>
      by_cases hc : c = -1
      · simp [hc]
      · simp [hc]

theorem replace_value_map (v : Int) (tid : List Char) :
    ∀ (regs : List registers_t) (code : Int) (regs' : List registers_t),
      replace_value v tid regs = some (code, regs') →
      regs'.map regidBounds = regs.map regidBounds := by
  intro regs
  induction regs with
  | nil =>
    intro code regs' h
    unfold replace_value at h
    cases h
    rfl
  | cons r rs ih =>
    intro code regs' h
    unfold replace_value at h
    split at h
    · cases hbc : bound_check v r.bounds with
      | none => rw [hbc] at h; cases h
      | some c =>
        rw [hbc] at h
        dsimp only at h
        by_cases hc : c = -1
        · rw [if_neg (not_not_intro hc)] at h
          cases h
          rfl
        · rw [if_pos hc] at h
          cases h
          simp [regidBounds]
    · cases hrec : replace_value v tid rs with
      | none => rw [hrec] at h; cases h
      | some p =>
        rw [hrec] at h
        cases h
        simp only [List.map_cons]
        rw [ih p.1 p.2 (by rw [hrec])]

theorem replace_value_stuck (v : Int) (tid : List Char) :
    ∀ (regs : List registers_t) (code : Int) (regs' : List registers_t),
      replace_value v tid regs = some (code, regs') → code ≠ 0 → regs' = regs := by
  intro regs
  induction regs with
  | nil =>
    intro code regs' h _
    unfold replace_value at h
    cases h
    rfl
  | cons r rs ih =>
    intro code regs' h hcode
    unfold replace_value at h
    split at h
    · cases hbc : bound_check v r.bounds with
      | none => rw [hbc] at h; cases h
      | some c =>
        rw [hbc] at h
        dsimp only at h
        by_cases hc : c = -1
        · rw [if_neg (not_not_intro hc)] at h
          cases h
          rfl
        · rw [if_pos hc] at h
          cases h
          exact absurd rfl hcode
    · cases hrec : replace_value v tid rs with
      | none => rw [hrec] at h; cases h
      | some p =>
        rw [hrec] at h
        cases h
        rw [ih p.1 p.2 (by rw [hrec]) hcode]

theorem replace_value_eq_findReg (v : Int) (tid : List Char) :
    ∀ regs : List registers_t,
      replace_value v tid regs =
        match findReg tid regs with
        | none => some (-2, regs)
        | some r =>
          match bound_check v r.bounds with
          | none => none
          | some c =>
            if c ≠ -1 then some (0, updateFirst tid v regs) else some (-1, regs) := by
  intro regs
  induction regs with
  | nil => rfl
  | cons r rs ih =>
    unfold replace_value findReg updateFirst
    by_cases hid : r.regid = tid
    · rw [if_pos hid, if_pos hid, if_pos hid]
    · rw [if_neg hid, if_neg hid, if_neg hid, ih]
      cases findReg tid rs with
      | none => rfl
      | some r' =>
        dsimp only
        cases bound_check v r'.bounds with
        | none => rfl
        | some c =>
          dsimp only
          by_cases hc : c = -1
          · rw [if_neg (not_not_intro hc), if_neg (not_not_intro hc)]
          · rw [if_pos hc, if_pos hc]

theorem print_bounds_cons (tid : List Char) (r : registers_t) (rs : List registers_t) :
    print_bounds tid (r :: rs)
      = if r.regid = tid then some r.bounds else print_bounds tid rs := rfl

theorem print_register_cons (tid : List Char) (r : registers_t) (rs : List registers_t) :
    print_register tid (r :: rs)
      = if r.regid = tid then r.regvalue else print_register tid rs := rfl

theorem findReg_cons (tid : List Char) (r : registers_t) (rs : List registers_t) :
    findReg tid (r :: rs) = if r.regid = tid then some r else findReg tid rs := rfl

theorem print_bounds_append_some (tid : List Char) (l1 l2 : List registers_t)
    (b : List Char) (h : print_bounds tid l1 = some b) :
    print_bounds tid (l1 ++ l2) = some b := by
  induction l1 with
  | nil => cases h
  | cons r rs ih =>
    rw [print_bounds_cons] at h
    rw [List.cons_append, print_bounds_cons]
    split at h
    · rw [if_pos (by assumption)]
      exact h
    · rw [if_neg (by assumption)]
      exact ih h

theorem print_bounds_append_none (tid : List Char) (l1 l2 : List registers_t)
    (h : ∀ r ∈ l1, r.regid ≠ tid) :
    print_bounds tid (l1 ++ l2) = print_bounds tid l2 := by
  induction l1 with
  | nil => rfl
  | cons r rs ih =>
    rw [List.cons_append, print_bounds_cons, if_neg (h r (List.mem_cons_self ..))]
    exact ih (fun x hx => h x (List.mem_cons_of_mem _ hx))

theorem print_bounds_congr (tid : List Char) :
    ∀ l1 l2 : List registers_t, l1.map regidBounds = l2.map regidBounds →
      print_bounds tid l1 = print_bounds tid l2 := by
  intro l1
  induction l1 with
  | nil =>
    intro l2 h
    cases l2 with
    | nil => rfl
    | cons r rs => cases h
  | cons r rs ih =>
    intro l2 h
    cases l2 with
    | nil => cases h
    | cons r' rs' =>
      simp only [List.map_cons, List.cons.injEq] at h
      obtain ⟨hhd, htl⟩ := h
      have hid : r.regid = r'.regid := congrArg Prod.fst hhd
      have hb : r.bounds = r'.bounds := congrArg Prod.snd hhd
      rw [print_bounds_cons, print_bounds_cons]
      by_cases hcase : r.regid = tid
      · rw [if_pos hcase, if_pos (hid ▸ hcase), hb]
      · rw [if_neg hcase, if_neg (hid ▸ hcase)]
        exact ih rs' htl

/-! ### The state-change shape of one loop iteration -/

theorem readOutcome_state (rid : List Char) (st : ServerState)
    (x : ServerState × String × Bool) (h : readOutcome rid st = some x) :
    x.1 = st := by
  unfold readOutcome at h
  dsimp only at h
  by_cases hc : print_register rid st.regs ≠ -1
  · rw [if_pos hc] at h
    cases h
    rfl
  · rw [if_neg hc] at h
    cases h
    rfl

theorem boundsOutcome_state (rid : List Char) (st : ServerState)
    (x : ServerState × String × Bool) (h : boundsOutcome rid st = some x) :
    x.1 = st := by
  unfold boundsOutcome at h
  cases hb : print_bounds rid st.regs with
  | none =>
    rw [hb] at h
    cases h
    rfl
  | some b =>
    rw [hb] at h
    cases h
    rfl

theorem writeOutcome_state (v : Int) (rid : List Char) (st : ServerState)
    (x : ServerState × String × Bool) (h : writeOutcome v rid st = some x) :
    x.1.regs.map regidBounds = st.regs.map regidBounds ∧
      x.1.numofregs = st.numofregs := by
  unfold writeOutcome at h
  cases hrv : replace_value v rid st.regs with
  | none =>
    rw [hrv] at h
    cases h
  | some p =>
    obtain ⟨code, regs'⟩ := p
    rw [hrv] at h
    dsimp only at h
    have hmap := replace_value_map v rid st.regs code regs' hrv
    by_cases h2 : code = -2
    · rw [if_pos h2] at h
      cases h
      exact ⟨hmap, rfl⟩
    · rw [if_neg h2] at h
      by_cases h1 : code = -1
      · rw [if_pos h1] at h
        cases h
        exact ⟨hmap, rfl⟩
      · rw [if_neg h1] at h
        cases h
        exact ⟨hmap, rfl⟩

theorem atDispatch_state (st : ServerState) (toks : List (List Char))
    (x : ServerState × String × Bool) (h : atDispatch st toks = some x) :
    x.1.regs.map regidBounds = st.regs.map regidBounds ∧
      x.1.numofregs = st.numofregs := by
  cases toks with
  | nil => cases h
  | cons mainCmd rest =>
    unfold atDispatch at h
    dsimp only at h
    cases hr : (tokenize ['+'] mainCmd)[1]? with
    | none =>
      rw [hr] at h
      cases h
    | some rid =>
      rw [hr] at h
      dsimp only at h
      cases hh : rest.head? with
      | none =>
        rw [hh] at h
        dsimp only at h
        rw [readOutcome_state rid st x h]
        exact ⟨rfl, rfl⟩
      | some tv =>
        rw [hh] at h
        dsimp only at h
        by_cases hq : tv = "?".toList
        · rw [if_pos hq] at h
          rw [boundsOutcome_state rid st x h]
          exact ⟨rfl, rfl⟩
        · rw [if_neg hq] at h
          exact writeOutcome_state (atoi tv) rid st x h

theorem serverStep_state_cases (st : ServerState) (req : List Char)
    (st' : ServerState) (resp : String) (b : Bool)
    (h : serverStep st req = some (st', resp, b)) :
    (∃ v bounds, st' = add_register v bounds st) ∨
    (st'.regs.map regidBounds = st.regs.map regidBounds ∧
      st'.numofregs = st.numofregs) := by
  unfold serverStep at h
  split at h
  · cases hpi : process_insertion req st with
    | none => rw [hpi] at h; cases h
    | some s =>
      rw [hpi] at h
      cases h
      unfold process_insertion at hpi
      split at hpi
      · cases hpi
        exact Or.inl ⟨_, _, rfl⟩
      · cases hpi
  · split at h
    · cases h
      exact Or.inr ⟨rfl, rfl⟩
    · unfold process_atcommand at h
      split at h
      · exact Or.inr (atDispatch_state st (tokenize ['='] req) (st', resp, b) h)
      · cases h
        exact Or.inr ⟨rfl, rfl⟩

/-! ### The id-assignment invariant -/

theorem add_register_regs (v : Int) (bounds : List Char) (st : ServerState) :
    (add_register v bounds st).regs
      = st.regs ++ [⟨regIdStr (st.numofregs + 1), v, bounds⟩] := rfl

theorem add_register_numofregs (v : Int) (bounds : List Char) (st : ServerState) :
    (add_register v bounds st).numofregs = st.numofregs + 1 := rfl

theorem add_register_ids (v : Int) (bounds : List Char) (st : ServerState) :
    idsOf (add_register v bounds st) = idsOf st ++ [regIdStr (st.numofregs + 1)] := by
  unfold idsOf
  rw [add_register_regs, List.map_append]
  rfl

theorem regIdStr_injective : Function.Injective regIdStr := by
  intro a b h
  exact natRepr_injective (List.append_cancel_left h)

theorem storeInv_startup : StoreInv startup_state := by
  unfold StoreInv idsOf
  decide

theorem reachable_storeInv (st : ServerState) (h : Reachable st) : StoreInv st := by
  induction h with
  | init => exact storeInv_startup
  | @step st st' req resp b hr hstep ih =>
    rcases serverStep_state_cases st req st' resp b hstep with ⟨v, bounds, rfl⟩ | ⟨hmap, hnum⟩
    · unfold StoreInv at ih ⊢
      rw [add_register_ids, ih, add_register_numofregs]
      have h1 : 1 + 1 * st.numofregs = st.numofregs + 1 := by omega
      rw [List.range'_concat, List.map_append, h1]
      rfl
    · unfold StoreInv at ih ⊢
      unfold idsOf at ih ⊢
      have hids : st'.regs.map (fun r => r.regid) = st.regs.map (fun r => r.regid) := by
        have h1 := congrArg (List.map Prod.fst) hmap
        simpa [List.map_map, Function.comp, regidBounds] using h1
      rw [hids, hnum, ih]

theorem reachable_nodup (st : ServerState) (h : Reachable st) : (idsOf st).Nodup := by
  rw [reachable_storeInv st h]
  exact List.Nodup.map regIdStr_injective (List.nodup_range' 1 st.numofregs)

theorem reachable_fresh (st : ServerState) (h : Reachable st) :
    ∀ r ∈ st.regs, r.regid ≠ regIdStr (st.numofregs + 1) := by
  intro r hr heq
  have hmem : r.regid ∈ idsOf st := List.mem_map_of_mem _ hr
  rw [reachable_storeInv st h] at hmem
  obtain ⟨i, hi, hieq⟩ := List.mem_map.mp hmem
  rw [heq] at hieq
  have hinj := regIdStr_injective hieq
  obtain ⟨j, hj, hij⟩ := List.mem_range'.mp hi
  omega

/-! ### Preservation of stored bounds across loop iterations -/

theorem print_bounds_step (s2 s3 : ServerState) (req : List Char) (resp : String)
    (bb : Bool) (hstep : serverStep s2 req = some (s3, resp, bb))
    (tid b : List Char) (hb : print_bounds tid s2.regs = some b) :
    print_bounds tid s3.regs = some b := by
  rcases serverStep_state_cases s2 req s3 resp bb hstep with ⟨v, bounds, rfl⟩ | ⟨hmap, hnum⟩
  · rw [add_register_regs]
    exact print_bounds_append_some tid s2.regs _ b hb
  · rw [print_bounds_congr tid s3.regs s2.regs hmap]
    exact hb

theorem print_bounds_reachFrom (s1 s2 : ServerState) (hr : ReachFrom s1 s2)
    (tid b : List Char) (hb : print_bounds tid s1.regs = some b) :
    print_bounds tid s2.regs = some b := by
  induction hr with
  | refl => exact hb
  | step hr hstep ih => exact print_bounds_step _ _ _ _ _ hstep tid b ih

theorem print_bounds_add_register (st : ServerState) (v : Int) (bounds : List Char)
    (hfresh : ∀ r ∈ st.regs, r.regid ≠ regIdStr (st.numofregs + 1)) :
    print_bounds (regIdStr (st.numofregs + 1)) (add_register v bounds st).regs
      = some bounds := by
  rw [add_register_regs,
    print_bounds_append_none _ st.regs _ hfresh,
    print_bounds_cons, if_pos rfl]

/-! ### Claim C1 -/

/-- C1 counterexample: the bounds string `"5"` has no `'|'` and no valid
continuous shape, yet checking the value 7 against it reaches `atoi(NULL)`
(undefined behaviour, modelled `none`) instead of totally rejecting; and the
shapeless string `"5x-10y"` accepts 7 instead of rejecting it. -/
theorem C1_counterexample :
    ("5".toList.contains '|' = false ∧ validContShape "5".toList = false ∧
      bound_check 7 "5".toList = none) ∧
    ("5x-10y".toList.contains '|' = false ∧ validContShape "5x-10y".toList = false ∧
      bound_check 7 "5x-10y".toList = some 0) := by decide

/-- C1 (amended): the bounds check degrades to a total atoi-coerced check
only when the bounds string contains `'|'` or splits on `'-'` into at least
two runs; it hits `atoi(NULL)` — undefined behaviour — exactly when the
string has no `'|'` and either no `'-'`-run at all, or a single run whose
`atoi` value is exceeded by the candidate (C's `&&` short-circuit reaches
the NULL upper bound only then).  Two-run malformed strings are checked by
atoi coercion rather than rejected wholesale. -/
theorem C1_amended (v : Int) (bounds : List Char) :
    bound_check v bounds = none ↔
      '|' ∉ bounds ∧
        (tokenize ['-'] bounds = [] ∨
          ∃ lo, tokenize ['-'] bounds = [lo] ∧ atoi lo < v) := by
  unfold bound_check
  by_cases hmem : '|' ∈ bounds
  · rw [if_pos hmem]
    simp [hmem]
  · rw [if_neg hmem]
    cases htok : tokenize ['-'] bounds with
    | nil =>
      simp [hmem, htok]
    | cons lo rest =>
      cases rest with
      | nil =>
        dsimp only
        by_cases hlt : v > atoi lo
        · rw [if_pos hlt]
          simp only [true_iff]
          exact ⟨hmem, Or.inr ⟨lo, rfl, hlt⟩⟩
        · rw [if_neg hlt]
          simp only [reduceCtorEq, false_iff, not_and, not_or]
          intro _
          constructor
          · simp
          · rintro ⟨lo', hlo', hvlo'⟩
            cases hlo'
            exact hlt hvlo'
      | cons hi rest2 =>
        dsimp only
        simp only [reduceCtorEq, false_iff, not_and, not_or]
        intro _
        constructor
        · simp
        · rintro ⟨lo', hlo', hvlo'⟩
          cases hlo'

/-! ### Claim C2 -/

/-- C2 counterexample: for the discrete bounds string `"a|b"` neither piece
is parseable as an integer, yet a write of the value 0 to a register with
those bounds succeeds (`OK`), because `atoi("a") = 0` matches — contradicting
"unparsable pieces never match any candidate value (in particular x = 0)". -/
theorem C2_counterexample :
    isIntLit "a".toList = false ∧ isIntLit "b".toList = false ∧
    tokenize ['|'] "a|b".toList = ["a".toList, "b".toList] ∧
    bound_check 0 "a|b".toList = some 0 ∧
    writeOutcome 0 "REG3".toList ⟨[⟨"REG3".toList, 5, "a|b".toList⟩], 3⟩
      = some (⟨[⟨"REG3".toList, 0, "a|b".toList⟩], 3⟩, "OK\n", false) := by decide

/-- C2 (amended): for a register whose bounds string contains `'|'`, a write
of `x` succeeds (response `OK`, value stored) iff `atoi` of some nonempty
`'|'`-separated piece equals `x`: pieces listing integers match exactly those
integers, empty pieces are skipped by `strtok` and never match, but
unparsable pieces match their `atoi` coercion (`0` for pieces with no digit
prefix) rather than never matching. -/
theorem C2_amended (x : Int) (n : Nat) (st : ServerState)
    (pre post : List registers_t) (r : registers_t)
    (hsplit : st.regs = pre ++ r :: post)
    (hpre : ∀ y ∈ pre, y.regid ≠ regIdStr n)
    (hid : r.regid = regIdStr n)
    (hdisc : '|' ∈ r.bounds) :
    (serverStep st ("AT+REG".toList ++ natRepr n ++ '=' :: intRepr x)
        = some (⟨pre ++ { r with regvalue := x } :: post, st.numofregs⟩, "OK\n", false)
      ↔ ∃ t ∈ tokenize ['|'] r.bounds, atoi t = x) ∧
    [] ∉ tokenize ['|'] r.bounds := by
  refine ⟨?_, nil_not_mem_tokenize ['|'] r.bounds⟩
  rw [serverStep_at_write st (natRepr n) (intRepr x)
    (natRepr_no_char n (by decide)) (natRepr_no_char n (by decide))
    (intRepr_ne_nil x) (not_mem_intRepr x (by decide) (by decide))
    (intRepr_ne_qmark x)]
  rw [atoi_intRepr]
  unfold writeOutcome
  rw [hsplit, replace_value_found x ("REG".toList ++ natRepr n) pre post r hpre hid]
  unfold bound_check
  rw [if_pos hdisc]
  by_cases hany : ((tokenize ['|'] r.bounds).any fun t => x == atoi t) = true
  · rw [if_pos hany]
    dsimp only
    rw [if_pos (by decide : (0 : Int) ≠ -1)]
    dsimp only
    rw [if_neg (by decide : ¬(0 : Int) = -2), if_neg (by decide : ¬(0 : Int) = -1)]
    have hex : ∃ t ∈ tokenize ['|'] r.bounds, atoi t = x := by
      obtain ⟨t, ht, hxt⟩ := List.any_eq_true.mp hany
      exact ⟨t, ht, (beq_iff_eq.mp hxt).symm⟩
    simp [hex]
  · rw [if_neg hany]
    dsimp only
    rw [if_neg (by decide : ¬(-1 : Int) ≠ -1)]
    dsimp only
    rw [if_neg (by decide : ¬(-1 : Int) = -2), if_pos (by decide : (-1 : Int) = -1)]
    constructor
    · intro h
      simp only [Option.some.injEq, Prod.mk.injEq] at h
      exact absurd h.2.1 (by decide)
    · rintro ⟨t, ht, hxt⟩
      have hx2 : ((fun t => x == atoi t) t) = true := beq_iff_eq.mpr hxt.symm
      exact absurd (List.any_eq_true.mpr ⟨t, ht, hx2⟩) hany

/-- C2 witness: a register with bounds `"a|b"` accepts a write of 0. -/
theorem C2_witness :
    (serverStep ⟨[⟨"REG3".toList, 5, "a|b".toList⟩], 3⟩
        ("AT+REG".toList ++ natRepr 3 ++ '=' :: intRepr 0)
        = some (⟨[] ++ { (⟨"REG3".toList, 5, "a|b".toList⟩ : registers_t) with
              regvalue := 0 } :: [],
            (⟨[⟨"REG3".toList, 5, "a|b".toList⟩], 3⟩ : ServerState).numofregs⟩,
            "OK\n", false)
      ↔ ∃ t ∈ tokenize ['|'] "a|b".toList, atoi t = 0) ∧
    [] ∉ tokenize ['|'] "a|b".toList :=
  C2_amended 0 3 ⟨[⟨"REG3".toList, 5, "a|b".toList⟩], 3⟩ [] []
    ⟨"REG3".toList, 5, "a|b".toList⟩ rfl (by simp) (by decide) (by decide)

/-! ### Claim C3 -/

/-- On a continuous bounds string built from two nonnegative decimal
literals, the check is the strict open-interval test. -/
theorem bound_check_cont (w : Int) (lo hi : Nat) :
    bound_check w (natRepr lo ++ '-' :: natRepr hi)
      = some (if (lo : Int) < w ∧ w < (hi : Int) then 0 else -1) := by
  unfold bound_check
  have hnmem : '|' ∉ natRepr lo ++ '-' :: natRepr hi := by
    intro hmem
    rcases List.mem_append.mp hmem with h | h
    · exact natRepr_no_char lo (by decide) h
    · rcases List.mem_cons.mp h with h' | h'
      · cases h'
      · exact natRepr_no_char hi (by decide) h'
  rw [if_neg hnmem]
  rw [tokenize_append ['-'] (natRepr lo) (natRepr hi) '-' (natRepr_ne_nil lo)
      (fun c hc => by
        simp only [List.mem_singleton]
        rintro rfl
        exact natRepr_no_char lo (by decide) hc)
      (List.mem_singleton_self _)]
  rw [tokenize_no_delim ['-'] (natRepr hi) (natRepr_ne_nil hi)
      (fun c hc => by
        simp only [List.mem_singleton]
        rintro rfl
        exact natRepr_no_char hi (by decide) hc)]
  dsimp only
  rw [atoi_natRepr, atoi_natRepr]
  by_cases h1 : (lo : Int) < w
  · by_cases h2 : w < (hi : Int)
    · simp [h1, h2]
    · simp [h1, h2]
  · simp [h1]

/-- C3 (confirmed): for a register whose bounds string is the continuous
form `lo-hi` (nonnegative decimal endpoints, the only form the `'-'`
tokenizer supports), a write of `lo` and a write of `hi` are always both
answered `InvalidInput` and leave the state unchanged — also when the
interval has no interior, as in `5-6` or `5-5` — while a write of any
strictly interior integer is accepted (`OK`) and stores the value: the
interval is strictly exclusive on both ends. -/
theorem C3_continuous_bounds_exclusive (lo hi : Nat) (v : Int) (n : Nat)
    (st : ServerState) (pre post : List registers_t) (r : registers_t)
    (hsplit : st.regs = pre ++ r :: post)
    (hpre : ∀ y ∈ pre, y.regid ≠ regIdStr n)
    (hid : r.regid = regIdStr n)
    (hb : r.bounds = natRepr lo ++ '-' :: natRepr hi) :
    serverStep st ("AT+REG".toList ++ natRepr n ++ '=' :: intRepr (lo : Int))
        = some (st, "InvalidInput\n", false) ∧
    serverStep st ("AT+REG".toList ++ natRepr n ++ '=' :: intRepr (hi : Int))
        = some (st, "InvalidInput\n", false) ∧
    ((lo : Int) < v → v < (hi : Int) →
      serverStep st ("AT+REG".toList ++ natRepr n ++ '=' :: intRepr v)
        = some (⟨pre ++ { r with regvalue := v } :: post, st.numofregs⟩,
            "OK\n", false)) := by
  have hw : ∀ w : Int, serverStep st ("AT+REG".toList ++ natRepr n ++ '=' :: intRepr w)
      = writeOutcome w ("REG".toList ++ natRepr n) st := by
    intro w
    rw [serverStep_at_write st (natRepr n) (intRepr w)
      (natRepr_no_char n (by decide)) (natRepr_no_char n (by decide))
      (intRepr_ne_nil w) (not_mem_intRepr w (by decide) (by decide))
      (intRepr_ne_qmark w), atoi_intRepr]
  have hrv : ∀ w : Int, writeOutcome w ("REG".toList ++ natRepr n) st
      = if (lo : Int) < w ∧ w < (hi : Int) then
          some (⟨pre ++ { r with regvalue := w } :: post, st.numofregs⟩, "OK\n", false)
        else some (st, "InvalidInput\n", false) := by
    intro w
    unfold writeOutcome
    rw [hsplit, replace_value_found w ("REG".toList ++ natRepr n) pre post r hpre hid,
      hb, bound_check_cont]
    by_cases hin : (lo : Int) < w ∧ w < (hi : Int)
    · rw [if_pos hin]
      dsimp only
      rw [if_pos (by decide : (0 : Int) ≠ -1)]
      dsimp only
      rw [if_neg (by decide : ¬(0 : Int) = -2), if_neg (by decide : ¬(0 : Int) = -1),
        if_pos hin]
    · rw [if_neg hin]
      dsimp only
      rw [if_neg (by decide : ¬(-1 : Int) ≠ -1)]
      dsimp only
      rw [if_neg (by decide : ¬(-1 : Int) = -2), if_pos (by decide : (-1 : Int) = -1),
        if_neg hin, ← hsplit]
  refine ⟨?_, ?_, ?_⟩
  · rw [hw, hrv, if_neg (by omega)]
  · rw [hw, hrv, if_neg (by omega)]
  · intro hlo hhi
    rw [hw, hrv, if_pos ⟨hlo, hhi⟩]

/-- C3 witness: `REG1` of the fresh server has bounds `0-16535`; writing 0
and 16535 are rejected (`InvalidInput`) and writing 3 succeeds. -/
theorem C3_witness :
    serverStep startup_state ("AT+REG".toList ++ natRepr 1 ++ '=' :: intRepr ((0 : Nat) : Int))
        = some (startup_state, "InvalidInput\n", false) ∧
    serverStep startup_state ("AT+REG".toList ++ natRepr 1 ++ '=' :: intRepr ((16535 : Nat) : Int))
        = some (startup_state, "InvalidInput\n", false) ∧
    serverStep startup_state ("AT+REG".toList ++ natRepr 1 ++ '=' :: intRepr 3)
        = some (⟨[] ++ { reg1 with regvalue := 3 }
              :: [⟨"REG".toList ++ natRepr 2, 3, "1|2|3".toList⟩],
            startup_state.numofregs⟩, "OK\n", false) := by
  have h := C3_continuous_bounds_exclusive 0 16535 3 1 startup_state
    [] [⟨"REG".toList ++ natRepr 2, 3, "1|2|3".toList⟩] reg1
    (by decide) (by simp) (by decide) (by decide)
  exact ⟨h.1, h.2.1, h.2.2 (by decide) (by decide)⟩

/-! ### Claim C4 -/

/-- C4 (confirmed): a write request `AT+REG<sfx>=<v>` looks the register up
by id: when absent the state is unchanged and the response is
`INVALID REGISTER`; when present and the bounds check fails (`-1`) the state
— in particular the stored value — is unchanged and the response is
`InvalidInput`; when present and the bounds check passes, the first matching
register's value becomes `v` and the response is `OK` (a bounds check that
hits undefined behaviour propagates it). -/
theorem C4_write_semantics (sfx : List Char) (v : Int) (st : ServerState)
    (hsE : '=' ∉ sfx) (hsP : '+' ∉ sfx) :
    serverStep st ("AT+REG".toList ++ sfx ++ '=' :: intRepr v)
      = match findReg ("REG".toList ++ sfx) st.regs with
        | none => some (st, "INVALID REGISTER\n", false)
        | some r =>
          match bound_check v r.bounds with
          | none => none
          | some c =>
            if c ≠ -1 then
              some (⟨updateFirst ("REG".toList ++ sfx) v st.regs, st.numofregs⟩,
                "OK\n", false)
            else some (st, "InvalidInput\n", false) := by
  rw [serverStep_at_write st sfx (intRepr v) hsE hsP (intRepr_ne_nil v)
    (not_mem_intRepr v (by decide) (by decide)) (intRepr_ne_qmark v), atoi_intRepr]
  unfold writeOutcome
  rw [replace_value_eq_findReg]
  cases findReg ("REG".toList ++ sfx) st.regs with
  | none =>
    dsimp only
    rw [if_pos (by decide : (-2 : Int) = -2)]
  | some r =>
    dsimp only
    cases bound_check v r.bounds with
    | none => rfl
    | some c =>
      dsimp only
      by_cases hc : c = -1
      · rw [if_neg (not_not_intro hc), if_neg (not_not_intro hc)]
        dsimp only
        rw [if_neg (by decide : ¬(-1 : Int) = -2), if_pos (by decide : (-1 : Int) = -1)]
      · rw [if_pos hc, if_pos hc]
        dsimp only
        rw [if_neg (by decide : ¬(0 : Int) = -2), if_neg (by decide : ¬(0 : Int) = -1)]

/-- C4 witness: on the fresh server, `AT+REG1=5` finds `REG1`, passes the
`0-16535` bounds check, stores 5 and answers `OK`. -/
theorem C4_witness :
    serverStep startup_state ("AT+REG".toList ++ "1".toList ++ '=' :: intRepr 5)
      = some (⟨[⟨"REG1".toList, 5, "0-16535".toList⟩,
          ⟨"REG".toList ++ natRepr 2, 3, "1|2|3".toList⟩], 2⟩, "OK\n", false) := by
  have h := C4_write_semantics "1".toList 5 startup_state (by decide) (by decide)
  exact h

/-! ### Claim C5 -/

/-- C5 (confirmed): in every reachable state, the register ids are exactly
`REG1 ... REG<numofregs>` in insertion order (so they are unique, strictly
increasing by one, never reused or skipped), and a successful insert appends
the id `"REG" + (previous count + 1)`. -/
theorem C5_id_assignment (st : ServerState) (v : Int) (bounds : List Char)
    (h : Reachable st) :
    idsOf st = (List.range' 1 st.numofregs).map regIdStr ∧
    (idsOf st).Nodup ∧
    idsOf (add_register v bounds st) = idsOf st ++ [regIdStr (st.numofregs + 1)] :=
  ⟨reachable_storeInv st h, reachable_nodup st h, add_register_ids v bounds st⟩

/-- C5 witness at the startup state. -/
theorem C5_witness :
    idsOf startup_state = (List.range' 1 startup_state.numofregs).map regIdStr ∧
    (idsOf startup_state).Nodup ∧
    idsOf (add_register 7 "0-9".toList startup_state)
      = idsOf startup_state ++ [regIdStr (startup_state.numofregs + 1)] :=
  C5_id_assignment startup_state 7 "0-9".toList Reachable.init

/-! ### Claim C6 -/

/-- C6 (confirmed): an `insert+<v>+<b>` request always succeeds — the
register is appended and the response is `INSERTION COMPLETE` — with no
bounds check consulted; in particular (second conjunct) inserting value 5
with bounds `1|2|3` creates a register whose stored value fails its own
bounds check. -/
theorem C6_insert_unchecked (vtok btok : List Char) (st : ServerState)
    (hv1 : vtok ≠ []) (hv2 : '+' ∉ vtok) (hb1 : btok ≠ []) (hb2 : '+' ∉ btok) :
    serverStep st ("insert".toList ++ '+' :: (vtok ++ '+' :: btok))
        = some (add_register (atoi vtok) btok st, "INSERTION COMPLETE\n", false) ∧
    ∃ r ∈ (add_register 5 "1|2|3".toList startup_state).regs,
      r.regvalue = 5 ∧ r.bounds = "1|2|3".toList ∧
        bound_check r.regvalue r.bounds = some (-1) :=
  ⟨serverStep_insert_parse st vtok btok hv1 hv2 hb1 hb2, by decide⟩

/-- C6 witness: `insert+5+0-10` on the fresh server. -/
theorem C6_witness :
    serverStep startup_state ("insert".toList ++ '+' :: ("5".toList ++ '+' :: "0-10".toList))
        = some (add_register (atoi "5".toList) "0-10".toList startup_state,
            "INSERTION COMPLETE\n", false) ∧
    ∃ r ∈ (add_register 5 "1|2|3".toList startup_state).regs,
      r.regvalue = 5 ∧ r.bounds = "1|2|3".toList ∧
        bound_check r.regvalue r.bounds = some (-1) :=
  C6_insert_unchecked "5".toList "0-10".toList startup_state
    (by decide) (by decide) (by decide) (by decide)

/-! ### Claim C7 -/

/-- C7 counterexample: the request `quitX` matches none of the five grammar
productions, yet the server does not answer `INVALID AT-COMMAND`: prefix
matching dispatches it as a quit, the server answers `TERMINATING` and stops.
Likewise `AT+REGfoo` (no digit id) is dispatched as a read and answered
`INVALID REGISTER`. -/
theorem C7_counterexample :
    (matchesGrammar "quitX".toList = false ∧
      serverStep startup_state "quitX".toList
        = some (startup_state, "TERMINATING\n", true)) ∧
    (matchesGrammar "AT+REGfoo".toList = false ∧
      serverStep startup_state "AT+REGfoo".toList
        = some (startup_state, "INVALID REGISTER\n", false)) := by decide

/-- C7 (amended): the server answers `INVALID AT-COMMAND` exactly for the
requests whose first bytes match none of the three dispatch literals
`insert`, `quit`, `AT+REG`; an unparseable request that does carry one of
those prefixes is instead dispatched as that command kind (for example
`quitX` terminates the server). -/
theorem C7_unrecognized (st : ServerState) (req : List Char)
    (h1 : hasPref "insert".toList req = false)
    (h2 : hasPref "quit".toList req = false)
    (h3 : hasPref "AT+REG".toList req = false) :
    serverStep st req = some (st, "INVALID AT-COMMAND\n", false) := by
  unfold serverStep process_atcommand
  rw [h1, h2, h3]
  simp

/-- C7 witness: `FOOBAR` gets `INVALID AT-COMMAND`. -/
theorem C7_witness :
    serverStep startup_state "FOOBAR".toList
      = some (startup_state, "INVALID AT-COMMAND\n", false) :=
  C7_unrecognized startup_state "FOOBAR".toList rfl rfl rfl

/-! ### Claim C8 -/

/-- C8 counterexample: the token `12abc` is neither `?` nor a valid integer
literal, yet `AT+REG1=12abc` is not dispatched as a Write of 0: `atoi`
yields 12, the write succeeds storing 12 and answers `OK`, whereas an actual
Write of 0 to `REG1` would have been rejected (`InvalidInput`, since the
`0-16535` interval is exclusive). -/
theorem C8_counterexample :
    isIntLit "12abc".toList = false ∧
    "12abc".toList ≠ "?".toList ∧
    atoi "12abc".toList = 12 ∧
    serverStep startup_state "AT+REG1=12abc".toList
      = some (⟨[⟨"REG1".toList, 12, "0-16535".toList⟩,
          ⟨"REG2".toList, 3, "1|2|3".toList⟩], 2⟩, "OK\n", false) ∧
    writeOutcome 0 "REG1".toList startup_state
      = some (startup_state, "InvalidInput\n", false) := by decide

/-- C8 (amended): `AT+REG<sfx>=<tok>` with `tok` neither `?` nor numeric is
dispatched as a Write of `atoi tok` — the value of the token's longest
leading sign-and-digits prefix — and when the token has no leading digit or
sign at all (its first non-space character is neither), that value is 0, so
such tokens are written as 0 rather than raising a parse error. -/
theorem C8_write_coercion (st : ServerState) (sfx tok : List Char) (c : Char)
    (hsE : '=' ∉ sfx) (hsP : '+' ∉ sfx)
    (ht1 : tok ≠ []) (ht2 : '=' ∉ tok) (ht3 : tok ≠ ['?'])
    (hc : (tok.dropWhile cIsSpace).head? = some c)
    (hd : c.isDigit = false) (hm : c ≠ '-') (hp : c ≠ '+') :
    serverStep st ("AT+REG".toList ++ sfx ++ '=' :: tok)
        = writeOutcome (atoi tok) ("REG".toList ++ sfx) st ∧
    atoi tok = 0 := by
  refine ⟨serverStep_at_write st sfx tok hsE hsP ht1 ht2 ht3, ?_⟩
  unfold atoi
  cases hdw : tok.dropWhile cIsSpace with
  | nil => rw [hdw] at hc
  | cons c' r =>
    rw [hdw] at hc
    simp only [List.head?_cons, Option.some.injEq] at hc
    subst hc
    dsimp only
    rw [if_neg (by simp [beq_eq_false_iff_ne, hm]),
      if_neg (by simp [beq_eq_false_iff_ne, hp])]
    rw [List.takeWhile_cons_of_neg (by simp [hd])]
    rfl

/-- C8 witness: `AT+REG1=abc` is dispatched as a Write of `atoi "abc" = 0`. -/
theorem C8_witness :
    serverStep startup_state ("AT+REG".toList ++ "1".toList ++ '=' :: "abc".toList)
        = writeOutcome (atoi "abc".toList) ("REG".toList ++ "1".toList) startup_state ∧
    atoi "abc".toList = 0 :=
  C8_write_coercion startup_state "1".toList "abc".toList 'a'
    (by decide) (by decide) (by decide) (by decide) (by decide)
    (by decide) (by decide) (by decide) (by decide)

/-! ### Claim C9 -/

/-- C9 (confirmed): inserting a register with bounds `b` in any reachable
state assigns the fresh id `REG<count+1>` and answers
`INSERTION COMPLETE`; after any further sequence of defined loop iterations,
`AT+REG<count+1>=?` still answers exactly the stored string `b` — no
operation can change a stored bounds string. -/
theorem C9_bounds_roundtrip (st st2 : ServerState) (vtok b : List Char)
    (h : Reachable st)
    (hv1 : vtok ≠ []) (hv2 : '+' ∉ vtok) (hb1 : b ≠ []) (hb2 : '+' ∉ b)
    (hreach : ReachFrom (add_register (atoi vtok) b st) st2) :
    serverStep st ("insert".toList ++ '+' :: (vtok ++ '+' :: b))
        = some (add_register (atoi vtok) b st, "INSERTION COMPLETE\n", false) ∧
    serverStep st2 ("AT+REG".toList ++ natRepr (st.numofregs + 1) ++ '=' :: ['?'])
        = some (st2, b.asString, false) := by
  refine ⟨serverStep_insert_parse st vtok b hv1 hv2 hb1 hb2, ?_⟩
  have hpb : print_bounds (regIdStr (st.numofregs + 1))
      (add_register (atoi vtok) b st).regs = some b :=
    print_bounds_add_register st (atoi vtok) b (reachable_fresh st h)
  have hpb2 := print_bounds_reachFrom _ st2 hreach _ b hpb
  rw [serverStep_at_bounds st2 (natRepr (st.numofregs + 1))
    (natRepr_no_char _ (by decide)) (natRepr_no_char _ (by decide))]
  unfold boundsOutcome
  rw [show ("REG".toList ++ natRepr (st.numofregs + 1))
    = regIdStr (st.numofregs + 1) from rfl, hpb2]

/-- C9 witness: `insert+5+0-10` on the fresh server creates `REG3` and an
immediate `AT+REG3=?` answers `0-10`. -/
theorem C9_witness :
    serverStep startup_state ("insert".toList ++ '+' :: ("5".toList ++ '+' :: "0-10".toList))
        = some (add_register (atoi "5".toList) "0-10".toList startup_state,
            "INSERTION COMPLETE\n", false) ∧
    serverStep (add_register (atoi "5".toList) "0-10".toList startup_state)
        ("AT+REG".toList ++ natRepr (startup_state.numofregs + 1) ++ '=' :: ['?'])
        = some (add_register (atoi "5".toList) "0-10".toList startup_state,
            "0-10".toList.asString, false) :=
  C9_bounds_roundtrip startup_state
    (add_register (atoi "5".toList) "0-10".toList startup_state)
    "5".toList "0-10".toList Reachable.init
    (by decide) (by decide) (by decide) (by decide)
    (ReachFrom.refl _)

/-! ### Claim C10 -/

/-- C10 (confirmed): `insert+-1+0-10` is accepted without validation and
creates `REG3` with stored value `-1`; that register exists in the store,
yet a subsequent `AT+REG3` read is answered `INVALID REGISTER` instead of
the value, because `print_register` returns the actual value `-1`, which the
caller cannot tell apart from its own not-found sentinel `-1`. -/
theorem C10_sentinel_collision :
    serverStep startup_state "insert+-1+0-10".toList
        = some (⟨[⟨"REG1".toList, 0, "0-16535".toList⟩,
                  ⟨"REG2".toList, 3, "1|2|3".toList⟩,
                  ⟨"REG3".toList, -1, "0-10".toList⟩], 3⟩,
            "INSERTION COMPLETE\n", false) ∧
    (∃ r ∈ (⟨[⟨"REG1".toList, 0, "0-16535".toList⟩,
              ⟨"REG2".toList, 3, "1|2|3".toList⟩,
              ⟨"REG3".toList, -1, "0-10".toList⟩], 3⟩ : ServerState).regs,
        r.regid = "REG3".toList ∧ r.regvalue = -1) ∧
    print_register "REG3".toList
        [⟨"REG1".toList, 0, "0-16535".toList⟩,
         ⟨"REG2".toList, 3, "1|2|3".toList⟩,
         ⟨"REG3".toList, -1, "0-10".toList⟩] = -1 ∧
    serverStep (⟨[⟨"REG1".toList, 0, "0-16535".toList⟩,
                  ⟨"REG2".toList, 3, "1|2|3".toList⟩,
                  ⟨"REG3".toList, -1, "0-10".toList⟩], 3⟩ : ServerState)
        "AT+REG3".toList
        = some (⟨[⟨"REG1".toList, 0, "0-16535".toList⟩,
                  ⟨"REG2".toList, 3, "1|2|3".toList⟩,
                  ⟨"REG3".toList, -1, "0-10".toList⟩], 3⟩,
            "INVALID REGISTER\n", false) := by decide

end SerialPort
